import Mathlib

/-!
Verification of the go-minesweeper board logic.

The repository contains two near-identical variants of the same program:
`internal/internal.go` (library used by the cmd entry point) and
`minesweeper.go` (a standalone `package main`).  Both are embedded below:
the shared data model first, then the `internal` variant's operations
(`reveal`, `flag`, `revealAll`, `NewGrid`, `NewMines`,
`readAndParseInput`), then the standalone variant's operations
(prefixed `mw`).

Go machine integers never approach overflow here (all values are bounded
by 81), so `Int` / `Nat` model them exactly.  Go's `(value, error)`
return idiom is modelled by returning the value together with an
`Option String` error; the Go code mutates the receiver in place, so the
embedded functions also return the updated grid.
-/

namespace GoMinesweeper

/-- The `field` struct: one cell of the grid (Go zero value:
`isMine = false, isRevealed = false, adjacentMines = 0, isFlagged = false`). -/
structure field where
  isMine : Bool
  isRevealed : Bool
  adjacentMines : Nat
  isFlagged : Bool
deriving Repr, DecidableEq

/-- The zero value of `field`, produced by `make([]field, cols)`. -/
def zeroField : field := ⟨false, false, 0, false⟩

/-- `type grid struct { fields [][]field }` / `type grid [][]field`:
both variants are a slice of row slices. -/
abbrev grid := List (List field)

/-- `type Coordinate struct { row, col int }`.  Rows/columns are Go `int`s
and can be negative (the parser can produce `-1`). -/
structure Coordinate where
  row : Int
  col : Int
deriving Repr, DecidableEq

/-- In-place update of one list element, as Go's `l[i] = f(l[i])`;
out-of-range indices leave the list unchanged (never exercised by the
embedded code, which bounds-checks first). -/
def modifyAt (l : List α) (i : Nat) (f : α → α) : List α :=
  match l, i with
  | [], _ => []
  | x :: xs, 0 => f x :: xs
  | x :: xs, Nat.succ j => x :: modifyAt xs j f

/-- `g.fields[i][j] = f(g.fields[i][j])`. -/
def modifyCell (g : grid) (i j : Nat) (f : field → field) : grid :=
  modifyAt g i (fun rowFields => modifyAt rowFields j f)

/-- Read the cell at a (possibly out-of-range) coordinate; out-of-range
reads yield the zero `field` (the embedded code only reads in bounds). -/
def getCell (g : grid) (row col : Int) : field :=
  if row < 0 ∨ col < 0 then zeroField
  else ((g.getD row.toNat []).getD col.toNat zeroField)

/-- `func (g *grid) rows() int { return len(g.fields) }`. -/
def rows (g : grid) : Nat := g.length

/-- `func (g *grid) cols() int`: 0 for an empty grid, else the length of
the first row. -/
def cols (g : grid) : Nat :=
  if g.length < 1 then 0 else (g.headD []).length

/-- `func (g *grid) mines() int`: count of cells with `isMine` set. -/
def minesCount (g : grid) : Nat :=
  (g.map (fun rowFields => rowFields.countP (fun f => f.isMine))).sum

/-- Go slice expression `l[a:b]` (with `0 ≤ a ≤ b ≤ len l` in all uses
below). -/
def goSlice (l : List α) (a b : Int) : List α :=
  (l.take b.toNat).drop a.toNat

/-- The bounds test `row < 0 || g.rows() <= row || col < 0 || g.cols() <= col`
shared by `reveal`, `flag` and the mine-placement loop of `NewGrid`. -/
def outOfBounds (g : grid) (row col : Int) : Prop :=
  row < 0 ∨ (rows g : Int) ≤ row ∨ col < 0 ∨ (cols g : Int) ≤ col

instance (g : grid) (row col : Int) : Decidable (outOfBounds g row col) := by
  unfold outOfBounds; infer_instance

/-- The double loop of `grid.reveal` that counts mines in the 3×3 window
clipped to the board:
`for _, gridRow := range g.fields[max(row-1,0):min(row+2,len(g.fields))] {
   for _, field := range gridRow[max(col-1,0):min(col+2,len(gridRow))] {
     if field.isMine { g.fields[row][col].adjacentMines++ } } }`.
The loop increments the target cell's counter once per mine in the
window; the net effect is adding this count (the loop reads only
`isMine`, which it never writes). -/
def adjacentCount (g : grid) (row col : Int) : Nat :=
  ((goSlice g (max (row - 1) 0) (min (row + 2) (g.length : Int))).map
    (fun gridRow =>
      (goSlice gridRow (max (col - 1) 0) (min (col + 2) (gridRow.length : Int))).countP
        (fun f => f.isMine))).sum

/-- `func (g *grid) reveal(coord Coordinate) (bool, error)` from
`internal/internal.go`.  Returns (isStillAlive, updated grid, error).
On both error paths the Go function returns `false` and leaves the
receiver untouched. -/
def reveal (g : grid) (coord : Coordinate) : Bool × grid × Option String :=
  let row := coord.row
  let col := coord.col
  if outOfBounds g row col then
    (false, g, some "invalid row or column")
  else if (getCell g row col).isRevealed then
    (false, g, some "already defused")
  else
    let g1 := modifyCell g row.toNat col.toNat (fun f => { f with isRevealed := true })
    if (getCell g1 row col).isMine then
      (false, g1, none)
    else
      (true,
       modifyCell g1 row.toNat col.toNat
         (fun f => { f with adjacentMines := f.adjacentMines + adjacentCount g1 row col }),
       none)

/-- `func (g *grid) flag(coord Coordinate) error` from
`internal/internal.go`: toggles `isFlagged` after the bounds check. -/
def flag (g : grid) (coord : Coordinate) : grid × Option String :=
  if outOfBounds g coord.row coord.col then
    (g, some "invalid row or column")
  else
    (modifyCell g coord.row.toNat coord.col.toNat
      (fun f => { f with isFlagged := !f.isFlagged }), none)

/-- `func (g *grid) revealAll(isVictory bool) string` from
`internal/internal.go`:

```
for _, rowFields := range g.fields {
    for _, field := range rowFields {
        if field.isMine {
            field.isRevealed = true
            field.isFlagged = isVictory
        }
    }
}
```

In Go, the range variable `field` of a `range` over a `[]field` slice is
a fresh copy of each element; assigning to its fields writes into that
copy, which is discarded at the end of the iteration.  The backing
arrays of `g.fields` are never written, so the traversal leaves the grid
exactly as it was.  The embedding below performs the per-element copy
update and, as in Go, drops it, keeping the original element. -/
def revealAllGrid (g : grid) (isVictory : Bool) : grid :=
  g.map (fun rowFields =>
    rowFields.map (fun f =>
      let copy := if f.isMine then { f with isRevealed := true, isFlagged := isVictory } else f
      let _ := copy
      f))

/-- `func NewGrid(rows, cols int, mines []Coordinate) (Grid, error)`,
mine-placement loop: each mine coordinate is bounds-checked against the
freshly built grid and then `g.fields[row][col].isMine = true`. -/
def placeMines (g : grid) : List Coordinate → Except String grid
  | [] => Except.ok g
  | mine :: rest =>
    if outOfBounds g mine.row mine.col then
      Except.error "invalid mine"
    else
      placeMines (modifyCell g mine.row.toNat mine.col.toNat
        (fun f => { f with isMine := true })) rest

/-- `func NewGrid(rows, cols int, mines []Coordinate) (Grid, error)` from
`internal/internal.go`: rejects sizes outside `[3,9]`, builds a
`rows × cols` grid of zero fields, then places the mines. -/
def NewGrid (numRows numCols : Int) (mines : List Coordinate) : Except String grid :=
  if numRows < 3 ∨ 9 < numRows ∨ numCols < 3 ∨ 9 < numCols then
    Except.error "invalid grid size"
  else
    placeMines (List.replicate numRows.toNat (List.replicate numCols.toNat zeroField)) mines

/-- The ordered coordinate list built by `NewMines` before shuffling:
`mines[row*cols+col] = Coordinate{row, col}` over the nested
`for row := range rows { for col := range cols { ... } }` loops, i.e.
row-major enumeration of the whole board. -/
def allCoordinates (numRows numCols : Nat) : List Coordinate :=
  ((List.range numRows).product (List.range numCols)).map
    (fun p => ⟨(p.1 : Int), (p.2 : Int)⟩)

/-- `func NewMines(rows, cols, count int) []Coordinate`: shuffles the
full coordinate list with `rand.Shuffle` and returns the first `count`
elements (`mines[0:count]`).  The random shuffle is modelled by taking
the shuffled list as an argument; theorems quantify over every
permutation `shuffled` of `allCoordinates rows cols`. -/
def NewMines (count : Nat) (shuffled : List Coordinate) : List Coordinate :=
  shuffled.take count

/- ----------------------------------------------------------------- -/
/- The standalone variant, `minesweeper.go` (`package main`).  Its     -/
/- `field`/`grid`/`Coordinate` types are identical (modulo exported    -/
/- names), so the same Lean types model them.                          -/
/- ----------------------------------------------------------------- -/

/-- `func (g grid) Reveal(coord Coordinate) (isStillAlive bool, err error)`
from `minesweeper.go`.  Identical to the internal variant except that
both error paths return `isStillAlive = true`. -/
def mwReveal (g : grid) (coord : Coordinate) : Bool × grid × Option String :=
  let row := coord.row
  let col := coord.col
  if outOfBounds g row col then
    (true, g, some "invalid row or column")
  else if (getCell g row col).isRevealed then
    (true, g, some "already defused")
  else
    let g1 := modifyCell g row.toNat col.toNat (fun f => { f with isRevealed := true })
    if (getCell g1 row col).isMine then
      (false, g1, none)
    else
      (true,
       modifyCell g1 row.toNat col.toNat
         (fun f => { f with adjacentMines := f.adjacentMines + adjacentCount g1 row col }),
       none)

/-- `func (g grid) Flag(coord Coordinate) error` from `minesweeper.go`:
same bounds check and toggle as the internal variant. -/
def mwFlag (g : grid) (coord : Coordinate) : grid × Option String :=
  if outOfBounds g coord.row coord.col then
    (g, some "invalid row or column")
  else
    (modifyCell g coord.row.toNat coord.col.toNat
      (fun f => { f with isFlagged := !f.isFlagged }), none)

/-- `func (g grid) RevealAll(isVictory bool) string` from
`minesweeper.go`: indexes the grid directly
(`g[row][col].IsRevealed = true; g[row][col].IsFlagged = isVictory`
for every mine cell), so unlike the internal variant it really mutates
every mine cell. -/
def mwRevealAllGrid (g : grid) (isVictory : Bool) : grid :=
  g.map (fun rowFields =>
    rowFields.map (fun f =>
      if f.isMine then { f with isRevealed := true, isFlagged := isVictory } else f))

/-- `func NewGrid(rows, cols int, mines []Coordinate) (Grid, error)` from
`minesweeper.go`.  The Go function first rejects a `nil` mines slice; a
Lean list always models a non-nil slice, so that branch has no
counterpart here.  The rest is identical to the internal variant. -/
def mwNewGrid (numRows numCols : Int) (mines : List Coordinate) : Except String grid :=
  if numRows < 3 ∨ 9 < numRows ∨ numCols < 3 ∨ 9 < numCols then
    Except.error "invalid grid size"
  else
    placeMines (List.replicate numRows.toNat (List.replicate numCols.toNat zeroField)) mines

/- ----------------------------------------------------------------- -/
/- Input parsing.                                                     -/
/- ----------------------------------------------------------------- -/

/-- `strconv.Atoi` applied to a one-character string (`input[0:1]` /
`input[1:2]`): succeeds exactly on `"0"` … `"9"`, returning the digit
value (`"+"`/`"-"` alone fail: Atoi requires at least one digit). -/
def atoiChar (ch : Char) : Option Int :=
  if '0' ≤ ch ∧ ch ≤ '9' then some ((ch.toNat : Int) - ('0'.toNat : Int)) else none

/-- The pure parsing core of `readAndParseInput` (both variants; the
internal one is embedded — the standalone one differs only in the
coordinate value returned alongside an error, which the `error` result
subsumes).  The scanned line is modelled as its character list; every
input the program's grammar concerns is ASCII, where Go's byte length
and indexing agree with character positions.  Checks, in source order:
length in `[2,3]`; `Atoi` of the first and second one-character
substrings; if length is 3, the third character must be `'f'`; returns
the 1-indexed digits decremented, plus the flag intent. -/
def readAndParseInput (input : List Char) : Except String (Coordinate × Bool) :=
  if input.length < 2 ∨ 3 < input.length then
    Except.error "invalid input"
  else
    match atoiChar (input.getD 0 ' '), atoiChar (input.getD 1 ' ') with
    | some row, some col =>
      if input.length == 3 then
        if input.getD 2 ' ' ≠ 'f' then Except.error "invalid input"
        else Except.ok (⟨row - 1, col - 1⟩, true)
      else Except.ok (⟨row - 1, col - 1⟩, false)
    | _, _ => Except.error "invalid input"

/- ----------------------------------------------------------------- -/
/- Specification-side definitions (written from the spec's words, for  -/
/- comparison with the embedded code).                                 -/
/- ----------------------------------------------------------------- -/

/-- Mine test at a coordinate, false outside the board: used to state the
clipped neighbourhood count. -/
def mineAt (g : grid) (row col : Int) : Bool :=
  (getCell g row col).isMine

/-- The eight orthogonal/diagonal neighbour offsets. -/
def neighborOffsets : List (Int × Int) :=
  [(-1, -1), (-1, 0), (-1, 1), (0, -1), (0, 1), (1, -1), (1, 0), (1, 1)]

/-- Spec-side adjacency: the number of mine cells among the up-to-8
orthogonal/diagonal neighbours (the 3×3 window clipped at board edges:
out-of-board positions hold no mine). -/
def neighborMines (g : grid) (row col : Int) : Nat :=
  (neighborOffsets.map
    (fun d => if mineAt g (row + d.1) (col + d.2) then 1 else 0)).sum

/- ----------------------------------------------------------------- -/
/- Infrastructure lemmas.                                             -/
/- ----------------------------------------------------------------- -/

theorem length_modifyAt (l : List α) (i : Nat) (f : α → α) :
    (modifyAt l i f).length = l.length := by
  induction l generalizing i with
  | nil => rfl
  | cons x xs ih =>
    cases i with
    | zero => rfl
    | succ j => simp [modifyAt, ih]

theorem getD_modifyAt (l : List α) (i j : Nat) (f : α → α) (d : α) :
    (modifyAt l i f).getD j d =
      if i = j ∧ j < l.length then f (l.getD j d) else l.getD j d := by
  induction l generalizing i j with
  | nil => simp [modifyAt]
  | cons x xs ih =>
    cases i with
    | zero =>
      cases j with
      | zero => simp [modifyAt]
      | succ j2 => simp [modifyAt]
    | succ i2 =>
      cases j with
      | zero => simp [modifyAt]
      | succ j2 =>
        simp only [modifyAt, List.getD_cons_succ, List.length_cons, ih i2 j2]
        by_cases h : i2 = j2 ∧ j2 < xs.length
        · rw [if_pos h, if_pos ⟨by omega, by omega⟩]
        · rw [if_neg h, if_neg (by omega)]

theorem modifyAt_modifyAt (l : List α) (i : Nat) (f h : α → α) :
    modifyAt (modifyAt l i f) i h = modifyAt l i (fun x => h (f x)) := by
  induction l generalizing i with
  | nil => rfl
  | cons x xs ih =>
    cases i with
    | zero => rfl
    | succ j => simp [modifyAt, ih]

theorem modifyAt_congr (l : List α) (i : Nat) (f h : α → α) (hfh : ∀ x, f x = h x) :
    modifyAt l i f = modifyAt l i h := by
  induction l generalizing i with
  | nil => rfl
  | cons x xs ih =>
    cases i with
    | zero => simp [modifyAt, hfh]
    | succ j => simp [modifyAt, ih]

theorem modifyAt_id (l : List α) (i : Nat) : modifyAt l i (fun x => x) = l := by
  induction l generalizing i with
  | nil => rfl
  | cons x xs ih =>
    cases i with
    | zero => rfl
    | succ j => simp [modifyAt, ih]

theorem countP_modifyAt_pres (l : List α) (i : Nat) (f : α → α) (p : α → Bool)
    (hp : ∀ x, p (f x) = p x) :
    (modifyAt l i f).countP p = l.countP p := by
  induction l generalizing i with
  | nil => rfl
  | cons x xs ih =>
    cases i with
    | zero => simp [modifyAt, List.countP_cons, hp]
    | succ j => simp [modifyAt, List.countP_cons, ih]

theorem countP_modifyAt_set (l : List α) (i : Nat) (f : α → α) (p : α → Bool) (d : α)
    (hi : i < l.length) (hold : p (l.getD i d) = false) (hnew : ∀ x, p (f x) = true) :
    (modifyAt l i f).countP p = l.countP p + 1 := by
  induction l generalizing i with
  | nil => simp at hi
  | cons x xs ih =>
    cases i with
    | zero =>
      simp only [List.getD_cons_zero] at hold
      simp [modifyAt, List.countP_cons, hnew, hold]
    | succ j =>
      simp only [List.getD_cons_succ] at hold
      simp only [List.length_cons, Nat.succ_lt_succ_iff] at hi
      simp only [modifyAt, List.countP_cons, ih j hi hold]
      omega

theorem length_modifyCell (g : grid) (i j : Nat) (f : field → field) :
    (modifyCell g i j f).length = g.length :=
  length_modifyAt g i _

theorem rowLen_modifyCell (g : grid) (i j rn : Nat) (f : field → field) :
    ((modifyCell g i j f).getD rn []).length = (g.getD rn []).length := by
  unfold modifyCell
  rw [getD_modifyAt]
  split_ifs with h
  · exact length_modifyAt _ j f
  · rfl

theorem headD_eq_getD (l : List α) (d : α) : l.headD d = l.getD 0 d := by
  cases l <;> rfl

theorem cols_eq_getD (g : grid) :
    cols g = if g.length < 1 then 0 else (g.getD 0 []).length := by
  unfold cols
  rw [headD_eq_getD]

theorem rows_modifyCell (g : grid) (i j : Nat) (f : field → field) :
    rows (modifyCell g i j f) = rows g :=
  length_modifyCell g i j f

theorem cols_modifyCell (g : grid) (i j : Nat) (f : field → field) :
    cols (modifyCell g i j f) = cols g := by
  rw [cols_eq_getD, cols_eq_getD, length_modifyCell, rowLen_modifyCell]

theorem outOfBounds_modifyCell (g : grid) (i j : Nat) (f : field → field) (r c : Int) :
    outOfBounds (modifyCell g i j f) r c ↔ outOfBounds g r c := by
  unfold outOfBounds
  rw [rows_modifyCell, cols_modifyCell]

theorem getCellN_modifyCell (g : grid) (i j rn cn : Nat) (f : field → field) :
    ((modifyCell g i j f).getD rn []).getD cn zeroField =
      if i = rn ∧ j = cn ∧ rn < g.length ∧ cn < (g.getD rn []).length then
        f ((g.getD rn []).getD cn zeroField)
      else (g.getD rn []).getD cn zeroField := by
  unfold modifyCell
  rw [getD_modifyAt]
  split_ifs with h1 h2 h2
  · rw [getD_modifyAt]
    rw [if_pos ⟨h2.2.1, h2.2.2.2⟩]
  · rw [getD_modifyAt]
    rw [if_neg (by
      intro hcon
      exact h2 ⟨h1.1, hcon.1, h1.2, hcon.2⟩)]
  · exact absurd ⟨h2.1, h2.2.2.1⟩ h1
  · rfl

theorem getCell_modifyCell (g : grid) (i j : Nat) (f : field → field) (r c : Int) :
    getCell (modifyCell g i j f) r c =
      if r = (i : Int) ∧ c = (j : Int) ∧ i < g.length ∧ j < (g.getD i []).length then
        f (getCell g r c)
      else getCell g r c := by
  by_cases hneg : r < 0 ∨ c < 0
  · rw [if_neg (by rintro ⟨h1, h2, _⟩; omega)]
    unfold getCell
    rw [if_pos hneg, if_pos hneg]
  · push_neg at hneg
    have hng : ¬(r < 0 ∨ c < 0) := by omega
    unfold getCell
    rw [if_neg hng, if_neg hng]
    rw [getCellN_modifyCell]
    by_cases hr : r = (i : Int)
    · by_cases hc : c = (j : Int)
      · have hri : r.toNat = i := by omega
        have hcj : c.toNat = j := by omega
        rw [hri, hcj]
        by_cases hb : i < g.length ∧ j < (g.getD i []).length
        · have h1 : i = i ∧ j = j ∧ i < g.length ∧ j < (g.getD i []).length :=
            ⟨rfl, rfl, hb.1, hb.2⟩
          have h2 : r = (i : Int) ∧ c = (j : Int) ∧ i < g.length ∧ j < (g.getD i []).length :=
            ⟨hr, hc, hb.1, hb.2⟩
          rw [if_pos h1, if_pos h2]
        · have h1 : ¬(i = i ∧ j = j ∧ i < g.length ∧ j < (g.getD i []).length) := by
            intro hcon; exact hb ⟨hcon.2.2.1, hcon.2.2.2⟩
          have h2 : ¬(r = (i : Int) ∧ c = (j : Int) ∧ i < g.length ∧
              j < (g.getD i []).length) := by
            intro hcon; exact hb ⟨hcon.2.2.1, hcon.2.2.2⟩
          rw [if_neg h1, if_neg h2]
      · have h1 : ¬(i = r.toNat ∧ j = c.toNat ∧ r.toNat < g.length ∧
            c.toNat < (g.getD r.toNat []).length) := by
          intro hcon; exact hc (by omega)
        have h2 : ¬(r = (i : Int) ∧ c = (j : Int) ∧ i < g.length ∧
            j < (g.getD i []).length) := by
          intro hcon; exact hc hcon.2.1
        rw [if_neg h1, if_neg h2]
    · have h1 : ¬(i = r.toNat ∧ j = c.toNat ∧ r.toNat < g.length ∧
          c.toNat < (g.getD r.toNat []).length) := by
        intro hcon; exact hr (by omega)
      have h2 : ¬(r = (i : Int) ∧ c = (j : Int) ∧ i < g.length ∧
          j < (g.getD i []).length) := by
        intro hcon; exact hr hcon.1
      rw [if_neg h1, if_neg h2]

theorem minesCount_modifyCell_pres (g : grid) (i j : Nat) (f : field → field)
    (hf : ∀ x, (f x).isMine = x.isMine) :
    minesCount (modifyCell g i j f) = minesCount g := by
  unfold minesCount modifyCell
  induction g generalizing i with
  | nil => rfl
  | cons row rest ih =>
    cases i with
    | zero =>
      simp only [modifyAt, List.map_cons, List.sum_cons]
      rw [countP_modifyAt_pres row j f _ hf]
    | succ i2 =>
      simp only [modifyAt, List.map_cons, List.sum_cons, ih i2]

theorem minesCount_modifyCell_set (g : grid) (i j : Nat)
    (hi : i < g.length) (hj : j < (g.getD i []).length)
    (hm : ((g.getD i []).getD j zeroField).isMine = false) :
    minesCount (modifyCell g i j (fun x => { x with isMine := true })) =
      minesCount g + 1 := by
  unfold minesCount modifyCell
  induction g generalizing i with
  | nil => simp at hi
  | cons row rest ih =>
    cases i with
    | zero =>
      simp only [List.getD_cons_zero] at hj hm
      simp only [modifyAt, List.map_cons, List.sum_cons]
      rw [countP_modifyAt_set row j _ (fun f => f.isMine) zeroField hj hm (fun x => rfl)]
      omega
    | succ i2 =>
      simp only [List.getD_cons_succ] at hj hm
      simp only [List.length_cons, Nat.succ_lt_succ_iff] at hi
      simp only [modifyAt, List.map_cons, List.sum_cons, ih i2 hi hj hm]
      omega

/-- Rectangular shape: the board has `rn` rows of `cn` cells each. -/
def GridShape (g : grid) (rn cn : Nat) : Prop :=
  g.length = rn ∧ ∀ i, i < rn → (g.getD i []).length = cn

theorem getD_replicate_of_lt (n i : Nat) (a d : α) (hi : i < n) :
    (List.replicate n a).getD i d = a := by
  induction n generalizing i with
  | zero => omega
  | succ m ih =>
    cases i with
    | zero => rfl
    | succ i2 => simpa [List.replicate_succ] using ih i2 (by omega)

theorem getD_of_le (l : List α) (i : Nat) (d : α) (h : l.length ≤ i) :
    l.getD i d = d := by
  induction l generalizing i with
  | nil => rfl
  | cons x xs ih =>
    cases i with
    | zero => simp at h
    | succ j => simpa using ih j (by simpa using h)

theorem gridShape_replicate (rn cn : Nat) :
    GridShape (List.replicate rn (List.replicate cn zeroField)) rn cn := by
  refine ⟨List.length_replicate rn _, fun i hi => ?_⟩
  rw [getD_replicate_of_lt rn i _ [] hi, List.length_replicate]

theorem rows_of_shape (g : grid) (rn cn : Nat) (hsh : GridShape g rn cn) :
    rows g = rn := hsh.1

theorem cols_of_shape (g : grid) (rn cn : Nat) (hsh : GridShape g rn cn)
    (hr : 0 < rn) : cols g = cn := by
  rw [cols_eq_getD, hsh.1, if_neg (by omega)]
  exact hsh.2 0 hr

theorem outOfBounds_shape (g : grid) (rn cn : Nat) (r c : Int)
    (hsh : GridShape g rn cn) (hr : 0 < rn) :
    outOfBounds g r c ↔ (r < 0 ∨ (rn : Int) ≤ r ∨ c < 0 ∨ (cn : Int) ≤ c) := by
  unfold outOfBounds rows
  rw [hsh.1, cols_of_shape g rn cn hsh hr]

theorem gridShape_modifyCell (g : grid) (rn cn i j : Nat) (f : field → field)
    (hsh : GridShape g rn cn) : GridShape (modifyCell g i j f) rn cn :=
  ⟨by rw [length_modifyCell, hsh.1],
   fun k hk => by rw [rowLen_modifyCell]; exact hsh.2 k hk⟩

theorem getCell_replicate (rn cn : Nat) (r c : Int) :
    getCell (List.replicate rn (List.replicate cn zeroField)) r c = zeroField := by
  unfold getCell
  split_ifs with h
  · rfl
  · by_cases hr2 : r.toNat < rn
    · rw [getD_replicate_of_lt rn r.toNat _ [] hr2]
      by_cases hc2 : c.toNat < cn
      · rw [getD_replicate_of_lt cn c.toNat _ zeroField hc2]
      · rw [getD_of_le (List.replicate cn zeroField) c.toNat zeroField
          (by rw [List.length_replicate]; omega)]
    · rw [getD_of_le (List.replicate rn (List.replicate cn zeroField)) r.toNat []
        (by rw [List.length_replicate]; omega)]
      rfl

theorem countP_replicate_zeroField (cn : Nat) :
    (List.replicate cn zeroField).countP (fun f => f.isMine) = 0 := by
  induction cn with
  | zero => rfl
  | succ m ih => simp [List.replicate_succ, List.countP_cons, ih, zeroField]

theorem minesCount_replicate (rn cn : Nat) :
    minesCount (List.replicate rn (List.replicate cn zeroField)) = 0 := by
  unfold minesCount
  rw [List.map_replicate, countP_replicate_zeroField]
  simp

theorem getD_map_d (l : List α) (h : α → β) (i : Nat) (d0 : α) :
    (l.map h).getD i (h d0) = h (l.getD i d0) := by
  induction l generalizing i with
  | nil => rfl
  | cons x xs ih =>
    cases i with
    | zero => rfl
    | succ j => simp

theorem getCell_mapGrid (g : grid) (f : field → field) (hf : f zeroField = zeroField)
    (r c : Int) :
    getCell (g.map (fun rowFields => rowFields.map f)) r c = f (getCell g r c) := by
  unfold getCell
  split_ifs with h
  · exact hf.symm
  · have houter : (g.map (fun rowFields => rowFields.map f)).getD r.toNat [] =
        (g.getD r.toNat []).map f :=
      getD_map_d g (fun rowFields => rowFields.map f) r.toNat []
    rw [houter]
    have hinner := getD_map_d (g.getD r.toNat []) f c.toNat zeroField
    rw [hf] at hinner
    exact hinner

theorem countP_congr_fun (l : List α) (p q : α → Bool) (h : ∀ x, p x = q x) :
    l.countP p = l.countP q := by
  induction l with
  | nil => rfl
  | cons x xs ih => simp [List.countP_cons, h, ih]

theorem minesCount_mapGrid (g : grid) (f : field → field)
    (hf : ∀ x, (f x).isMine = x.isMine) :
    minesCount (g.map (fun rowFields => rowFields.map f)) = minesCount g := by
  unfold minesCount
  induction g with
  | nil => rfl
  | cons row rest ih =>
    simp only [List.map_cons, List.sum_cons, ih]
    congr 1
    rw [List.countP_map]
    exact countP_congr_fun row _ _ (fun x => hf x)

theorem modifyCell_modifyCell (g : grid) (i j : Nat) (f h : field → field) :
    modifyCell (modifyCell g i j f) i j h = modifyCell g i j (fun x => h (f x)) := by
  unfold modifyCell
  rw [modifyAt_modifyAt]
  exact modifyAt_congr _ _ _ _ (fun row => modifyAt_modifyAt row j f h)

theorem modifyCell_id (g : grid) (i j : Nat) : modifyCell g i j (fun x => x) = g := by
  unfold modifyCell
  rw [modifyAt_congr _ _ _ (fun row => row) (fun row => modifyAt_id row j)]
  exact modifyAt_id g i

theorem modifyCell_congr (g : grid) (i j : Nat) (f h : field → field)
    (hfh : ∀ x, f x = h x) : modifyCell g i j f = modifyCell g i j h :=
  modifyAt_congr _ _ _ _ (fun row => modifyAt_congr row j f h hfh)

/- ----------------------------------------------------------------- -/
/- The clipped 3×3 window: relating the slice-based scan to per-cell   -/
/- mine indicators.                                                    -/
/- ----------------------------------------------------------------- -/

theorem countP_isMine_eq_sum (l : List field) :
    l.countP (fun f => f.isMine) = (l.map (fun x => if x.isMine then 1 else 0)).sum := by
  induction l with
  | nil => rfl
  | cons x xs ih => simp [List.countP_cons, ih, Nat.add_comm]

theorem goSlice_window (l : List α) (n : Nat) :
    goSlice l (max ((n : Int) - 1) 0) (min ((n : Int) + 2) (l.length : Int)) =
      (l.take (min (n + 2) l.length)).drop (n - 1) := by
  unfold goSlice
  have hb : (min ((n : Int) + 2) (l.length : Int)).toNat = min (n + 2) l.length := by omega
  have ha : (max ((n : Int) - 1) 0).toNat = n - 1 := by omega
  rw [hb, ha]

theorem window_at_zero (l : List α) (f : α → Nat) (d : α) (hd : f d = 0) :
    (((l.take (min 2 l.length)).drop 0).map f).sum = f (l.getD 0 d) + f (l.getD 1 d) := by
  match l with
  | [] => simp [hd]
  | [a] =>
    have h1 : min 2 ([a] : List α).length = 1 := by
      simp only [List.length_cons, List.length_nil]; omega
    rw [h1, List.drop_zero]
    have ht : ([a] : List α).take 1 = [a] := rfl
    rw [ht]
    simp [hd]
  | a :: b :: rest =>
    have h2 : min 2 (a :: b :: rest).length = 2 := by
      simp only [List.length_cons]; omega
    rw [h2, List.drop_zero]
    have ht : (a :: b :: rest).take 2 = [a, b] := rfl
    rw [ht]
    simp

theorem window_at_succ (l : List α) (n : Nat) (f : α → Nat) (d : α) (hd : f d = 0) :
    (((l.take (min (n + 3) l.length)).drop n).map f).sum =
      f (l.getD n d) + f (l.getD (n + 1) d) + f (l.getD (n + 2) d) := by
  induction n generalizing l with
  | zero =>
    match l with
    | [] => simp [hd]
    | [a] =>
      have h1 : min 3 ([a] : List α).length = 1 := by
        simp only [List.length_cons, List.length_nil]; omega
      rw [h1, List.drop_zero]
      have ht : ([a] : List α).take 1 = [a] := rfl
      rw [ht]
      simp [hd]
    | [a, b] =>
      have h1 : min 3 ([a, b] : List α).length = 2 := by
        simp only [List.length_cons, List.length_nil]; omega
      rw [h1, List.drop_zero]
      have ht : ([a, b] : List α).take 2 = [a, b] := rfl
      rw [ht]
      simp [hd, Nat.add_assoc]
    | a :: b :: c :: rest =>
      have h1 : min 3 (a :: b :: c :: rest).length = 3 := by
        simp only [List.length_cons]; omega
      rw [h1, List.drop_zero]
      have ht : (a :: b :: c :: rest).take 3 = [a, b, c] := rfl
      rw [ht]
      simp [Nat.add_assoc]
  | succ m ih =>
    match l with
    | [] => simp [hd]
    | a :: xs =>
      have hmin : min (m + 1 + 3) (a :: xs).length = min (m + 3) xs.length + 1 := by
        simp only [List.length_cons]; omega
      rw [hmin, List.take_succ_cons, List.drop_succ_cons, ih xs]
      simp [List.getD_cons_succ]

/-- One term of the window sum, with an `Int` index: `0` below the list's
front, `f` of the (defaulted) element otherwise. -/
def natCell (l : List α) (f : α → Nat) (d : α) (i : Int) : Nat :=
  if 0 ≤ i then f (l.getD i.toNat d) else 0

theorem window_sum_int (l : List α) (n : Nat) (f : α → Nat) (d : α) (hd : f d = 0) :
    (((l.take (min (n + 2) l.length)).drop (n - 1)).map f).sum =
      natCell l f d ((n : Int) - 1) + natCell l f d (n : Int) +
        natCell l f d ((n : Int) + 1) := by
  cases n with
  | zero =>
    have h0 : (0 : Nat) - 1 = 0 := rfl
    have h2 : (0 : Nat) + 2 = 2 := rfl
    rw [h0, h2, window_at_zero l f d hd]
    have e1 : natCell l f d (((0 : Nat) : Int) - 1) = 0 := by
      unfold natCell
      rw [if_neg (by omega)]
    have e2 : natCell l f d ((0 : Nat) : Int) = f (l.getD 0 d) := by
      unfold natCell
      rw [if_pos (by omega)]
      have ht : (((0 : Nat) : Int)).toNat = 0 := by omega
      rw [ht]
    have e3 : natCell l f d (((0 : Nat) : Int) + 1) = f (l.getD 1 d) := by
      unfold natCell
      rw [if_pos (by omega)]
      have ht : ((((0 : Nat) : Int)) + 1).toNat = 1 := by omega
      rw [ht]
    rw [e1, e2, e3]
    omega
  | succ m =>
    have h1 : m + 1 + 2 = m + 3 := by omega
    have h2 : m + 1 - 1 = m := by omega
    rw [h1, h2, window_at_succ l m f d hd]
    have e1 : natCell l f d (((m + 1 : Nat) : Int) - 1) = f (l.getD m d) := by
      unfold natCell
      rw [if_pos (by omega)]
      have ht : ((((m + 1 : Nat) : Int)) - 1).toNat = m := by omega
      rw [ht]
    have e2 : natCell l f d ((m + 1 : Nat) : Int) = f (l.getD (m + 1) d) := by
      unfold natCell
      rw [if_pos (by omega)]
      have ht : (((m + 1 : Nat) : Int)).toNat = m + 1 := by omega
      rw [ht]
    have e3 : natCell l f d (((m + 1 : Nat) : Int) + 1) = f (l.getD (m + 2) d) := by
      unfold natCell
      rw [if_pos (by omega)]
      have ht : ((((m + 1 : Nat) : Int)) + 1).toNat = m + 2 := by omega
      rw [ht]
    rw [e1, e2, e3]

theorem rowWindow_mines (l : List field) (cn : Nat) :
    (goSlice l (max ((cn : Int) - 1) 0) (min ((cn : Int) + 2) (l.length : Int))).countP
        (fun f => f.isMine) =
      natCell l (fun x => if x.isMine then 1 else 0) zeroField ((cn : Int) - 1) +
      natCell l (fun x => if x.isMine then 1 else 0) zeroField (cn : Int) +
      natCell l (fun x => if x.isMine then 1 else 0) zeroField ((cn : Int) + 1) := by
  rw [goSlice_window, countP_isMine_eq_sum,
    window_sum_int l cn (fun x => if x.isMine then 1 else 0) zeroField rfl]

theorem cellTerm_eq (g : grid) (ri ci : Int) (hr : 0 ≤ ri) :
    natCell (g.getD ri.toNat []) (fun x => if x.isMine then 1 else 0) zeroField ci =
      if mineAt g ri ci then 1 else 0 := by
  unfold natCell mineAt getCell
  by_cases hc : 0 ≤ ci
  · rw [if_pos hc, if_neg (show ¬(ri < 0 ∨ ci < 0) by omega)]
  · rw [if_neg hc, if_pos (show ri < 0 ∨ ci < 0 by omega)]
    simp [zeroField]

theorem natCell_row_triple (g : grid) (cn : Nat) (ri : Int) :
    natCell g (fun gridRow =>
      (goSlice gridRow (max ((cn : Int) - 1) 0)
        (min ((cn : Int) + 2) (gridRow.length : Int))).countP (fun f => f.isMine)) [] ri =
      (if mineAt g ri ((cn : Int) - 1) then 1 else 0) +
      (if mineAt g ri (cn : Int) then 1 else 0) +
      (if mineAt g ri ((cn : Int) + 1) then 1 else 0) := by
  by_cases hr : 0 ≤ ri
  · have h1 : natCell g (fun gridRow =>
        (goSlice gridRow (max ((cn : Int) - 1) 0)
          (min ((cn : Int) + 2) (gridRow.length : Int))).countP (fun f => f.isMine)) [] ri =
        (goSlice (g.getD ri.toNat []) (max ((cn : Int) - 1) 0)
          (min ((cn : Int) + 2) ((g.getD ri.toNat []).length : Int))).countP
          (fun f => f.isMine) := by
      unfold natCell
      rw [if_pos hr]
    rw [h1, rowWindow_mines, cellTerm_eq g ri _ hr, cellTerm_eq g ri _ hr,
      cellTerm_eq g ri _ hr]
  · have h1 : natCell g (fun gridRow =>
        (goSlice gridRow (max ((cn : Int) - 1) 0)
          (min ((cn : Int) + 2) (gridRow.length : Int))).countP (fun f => f.isMine)) [] ri =
        0 := by
      unfold natCell
      rw [if_neg hr]
    have hm : ∀ ci : Int, mineAt g ri ci = false := by
      intro ci
      unfold mineAt getCell
      rw [if_pos (Or.inl (by omega))]
      rfl
    rw [h1, hm, hm, hm]
    simp

theorem adjacentCount_eq_mines (g : grid) (rn cn : Nat) :
    adjacentCount g (rn : Int) (cn : Int) =
      ((if mineAt g ((rn : Int) - 1) ((cn : Int) - 1) then 1 else 0) +
       (if mineAt g ((rn : Int) - 1) (cn : Int) then 1 else 0) +
       (if mineAt g ((rn : Int) - 1) ((cn : Int) + 1) then 1 else 0)) +
      ((if mineAt g (rn : Int) ((cn : Int) - 1) then 1 else 0) +
       (if mineAt g (rn : Int) (cn : Int) then 1 else 0) +
       (if mineAt g (rn : Int) ((cn : Int) + 1) then 1 else 0)) +
      ((if mineAt g ((rn : Int) + 1) ((cn : Int) - 1) then 1 else 0) +
       (if mineAt g ((rn : Int) + 1) (cn : Int) then 1 else 0) +
       (if mineAt g ((rn : Int) + 1) ((cn : Int) + 1) then 1 else 0)) := by
  unfold adjacentCount
  rw [goSlice_window g rn,
    window_sum_int g rn (fun gridRow =>
      (goSlice gridRow (max ((cn : Int) - 1) 0)
        (min ((cn : Int) + 2) (gridRow.length : Int))).countP (fun f => f.isMine)) []
      (by simp [goSlice]),
    natCell_row_triple g cn ((rn : Int) - 1), natCell_row_triple g cn (rn : Int),
    natCell_row_triple g cn ((rn : Int) + 1)]

theorem adjacentCount_eq_neighborMines (g : grid) (rn cn : Nat)
    (hc : mineAt g (rn : Int) (cn : Int) = false) :
    adjacentCount g (rn : Int) (cn : Int) = neighborMines g (rn : Int) (cn : Int) := by
  rw [adjacentCount_eq_mines, hc]
  unfold neighborMines neighborOffsets
  simp only [List.map_cons, List.map_nil, List.sum_cons, List.sum_nil,
    Bool.false_eq_true, if_false]
  have e1 : (rn : Int) + -1 = (rn : Int) - 1 := by ring
  have e2 : (cn : Int) + -1 = (cn : Int) - 1 := by ring
  have e3 : (rn : Int) + 0 = (rn : Int) := by ring
  have e4 : (cn : Int) + 0 = (cn : Int) := by ring
  rw [e1, e2, e3, e4]
  omega

theorem mineAt_modifyCell_pres (g : grid) (i j : Nat) (f : field → field)
    (hf : ∀ x, (f x).isMine = x.isMine) (r c : Int) :
    mineAt (modifyCell g i j f) r c = mineAt g r c := by
  unfold mineAt
  rw [getCell_modifyCell]
  split_ifs with h
  · rw [hf]
  · rfl

theorem neighborMines_modifyCell_pres (g : grid) (i j : Nat) (f : field → field)
    (hf : ∀ x, (f x).isMine = x.isMine) (r c : Int) :
    neighborMines (modifyCell g i j f) r c = neighborMines g r c := by
  unfold neighborMines
  simp only [mineAt_modifyCell_pres g i j f hf]

/-- The data model's rectangularity: every row has `cols g` cells. -/
def Rectangular (g : grid) : Prop :=
  ∀ i, i < g.length → (g.getD i []).length = cols g

instance (g : grid) : Decidable (Rectangular g) := by
  unfold Rectangular
  exact Nat.decidableBallLT g.length _

/- ----------------------------------------------------------------- -/
/- Shared behaviour lemmas for the two variants.                      -/
/- ----------------------------------------------------------------- -/

/-- `reveal` returns one of three grids: the untouched one (error paths),
the one with the target marked revealed (mine), or additionally with the
adjacency counter bumped (non-mine). -/
theorem reveal_grid_forms (g : grid) (coord : Coordinate) :
    (reveal g coord).2.1 = g ∨
    (reveal g coord).2.1 = modifyCell g coord.row.toNat coord.col.toNat
      (fun f => { f with isRevealed := true }) ∨
    (reveal g coord).2.1 = modifyCell (modifyCell g coord.row.toNat coord.col.toNat
        (fun f => { f with isRevealed := true })) coord.row.toNat coord.col.toNat
      (fun f => { f with adjacentMines := (f.adjacentMines +
        adjacentCount (modifyCell g coord.row.toNat coord.col.toNat
          (fun f => { f with isRevealed := true })) coord.row coord.col) }) := by
  simp only [reveal]
  split_ifs
  · exact Or.inl rfl
  · exact Or.inl rfl
  · exact Or.inr (Or.inl rfl)
  · exact Or.inr (Or.inr rfl)

/-- The two variants' reveal agree on the resulting grid and the error;
only the `isStillAlive` value on error paths differs. -/
theorem mwReveal_eq_snd (g : grid) (coord : Coordinate) :
    (mwReveal g coord).2 = (reveal g coord).2 := by
  simp only [reveal, mwReveal]
  split_ifs <;> rfl

theorem mwFlag_eq (g : grid) (coord : Coordinate) : mwFlag g coord = flag g coord := rfl

theorem mwNewGrid_eq (numRows numCols : Int) (ms : List Coordinate) :
    mwNewGrid numRows numCols ms = NewGrid numRows numCols ms := rfl

/-- The internal variant's `revealAll` writes only the per-iteration copy
of each field, so the grid is unchanged. -/
theorem revealAllGrid_eq_self (g : grid) (v : Bool) : revealAllGrid g v = g := by
  show g.map (fun rowFields => rowFields.map (fun f => f)) = g
  simp

/-- A sample 3×3 board with mines at (0,0) and (1,2), for instantiating
the claim theorems at concrete inputs. -/
def sampleGrid : grid := (NewGrid 3 3 [⟨0, 0⟩, ⟨1, 2⟩]).toOption.getD []

/- ----------------------------------------------------------------- -/
/- Claim theorems.                                                    -/
/- ----------------------------------------------------------------- -/

/-- C1: for every (rectangular) board and every in-bounds, not previously
revealed coordinate, `reveal` marks exactly that cell revealed and
returns `stillAlive` = (the cell is not a mine); a non-mine cell gets
`adjacentMines` set to the exact number of mines among its up-to-8
neighbours (3×3 window clipped at the edges; the cell itself, not being
a mine, contributes nothing); a mine cell's `adjacentMines` is never
mutated.  The hypotheses `hrect` and `hz` (the cell's counter is still
zero) hold for every board the program builds and play of the game:
`NewGrid` returns rectangular boards with all counters zero
(`newGrid_cells_fresh` below) and every operation preserves
rectangularity and the unrevealed-implies-zero-counter invariant
(`unrevealed_zero_invariant` below; the only counter write goes to the
cell being revealed). -/
theorem reveal_fresh_cell_spec (g : grid) (coord : Coordinate)
    (hrect : Rectangular g)
    (hin : ¬ outOfBounds g coord.row coord.col)
    (hnr : (getCell g coord.row coord.col).isRevealed = false)
    (hz : (getCell g coord.row coord.col).adjacentMines = 0) :
    (reveal g coord).2.2 = none ∧
    (reveal g coord).1 = !(getCell g coord.row coord.col).isMine ∧
    getCell (reveal g coord).2.1 coord.row coord.col =
      { getCell g coord.row coord.col with
          isRevealed := true
          adjacentMines :=
            if (getCell g coord.row coord.col).isMine then
              (getCell g coord.row coord.col).adjacentMines
            else neighborMines g coord.row coord.col } ∧
    ∀ r c : Int, ¬(r = coord.row ∧ c = coord.col) →
      getCell (reveal g coord).2.1 r c = getCell g r c := by
  have hb : 0 ≤ coord.row ∧ coord.row < (g.length : Int) ∧ 0 ≤ coord.col ∧
      coord.col < (cols g : Int) := by
    unfold outOfBounds rows at hin
    push_neg at hin
    exact ⟨by omega, by omega, by omega, by omega⟩
  obtain ⟨rn, hrn⟩ : ∃ n : Nat, coord.row = (n : Int) := ⟨coord.row.toNat, by omega⟩
  obtain ⟨cn, hcn⟩ : ∃ n : Nat, coord.col = (n : Int) := ⟨coord.col.toNat, by omega⟩
  have htn1 : coord.row.toNat = rn := by omega
  have htn2 : coord.col.toNat = cn := by omega
  have hrnl : rn < g.length := by omega
  have hrlen : (g.getD rn []).length = cols g := hrect rn hrnl
  have hcnl : cn < (g.getD rn []).length := by rw [hrlen]; omega
  have hnotrev : ¬((getCell g coord.row coord.col).isRevealed = true) := by
    simp [hnr]
  have hrev : reveal g coord =
      (if (getCell (modifyCell g rn cn
            (fun f => { f with isRevealed := true })) ((rn : Nat) : Int)
            ((cn : Nat) : Int)).isMine then
         (false, modifyCell g rn cn (fun f => { f with isRevealed := true }), none)
       else
         (true, modifyCell (modifyCell g rn cn
              (fun f => { f with isRevealed := true })) rn cn
            (fun f => { f with adjacentMines := (f.adjacentMines +
              adjacentCount (modifyCell g rn cn
                (fun f => { f with isRevealed := true })) ((rn : Nat) : Int)
                ((cn : Nat) : Int)) }),
          none)) := by
    simp only [reveal]
    rw [if_neg hin, if_neg hnotrev, htn1, htn2, hrn, hcn]
  rw [hrn, hcn] at hnr hz ⊢
  rw [hrev]
  have hg1cell : getCell (modifyCell g rn cn
      (fun f => { f with isRevealed := true })) ((rn : Nat) : Int) ((cn : Nat) : Int) =
      { getCell g ((rn : Nat) : Int) ((cn : Nat) : Int) with isRevealed := true } := by
    rw [getCell_modifyCell]
    rw [if_pos ⟨by omega, by omega, hrnl, hcnl⟩]
  have hg1mine : (getCell (modifyCell g rn cn
      (fun f => { f with isRevealed := true })) ((rn : Nat) : Int) ((cn : Nat) : Int)).isMine =
      (getCell g ((rn : Nat) : Int) ((cn : Nat) : Int)).isMine := by
    rw [hg1cell]
  have hframe1 : ∀ r c : Int, ¬(r = ((rn : Nat) : Int) ∧ c = ((cn : Nat) : Int)) →
      getCell (modifyCell g rn cn
        (fun f => { f with isRevealed := true })) r c = getCell g r c := by
    intro r c hne
    rw [getCell_modifyCell]
    rw [if_neg (by rintro ⟨h1, h2, _⟩; exact hne ⟨h1, h2⟩)]
  rw [hg1mine]
  cases hmm : (getCell g ((rn : Nat) : Int) ((cn : Nat) : Int)).isMine with
  | true =>
    rw [if_pos rfl, if_pos rfl]
    refine ⟨rfl, rfl, ?_, hframe1⟩
    rw [hg1cell]
  | false =>
    rw [if_neg (by simp), if_neg (by simp)]
    have hg2cell : getCell (modifyCell (modifyCell g rn cn
        (fun f => { f with isRevealed := true })) rn cn
          (fun f => { f with adjacentMines := (f.adjacentMines +
            adjacentCount (modifyCell g rn cn
              (fun f => { f with isRevealed := true })) ((rn : Nat) : Int)
              ((cn : Nat) : Int)) }))
        ((rn : Nat) : Int) ((cn : Nat) : Int) =
        { getCell g ((rn : Nat) : Int) ((cn : Nat) : Int) with
            isRevealed := true
            adjacentMines := ((getCell g ((rn : Nat) : Int) ((cn : Nat) : Int)).adjacentMines +
              adjacentCount (modifyCell g rn cn
                (fun f => { f with isRevealed := true })) ((rn : Nat) : Int)
                ((cn : Nat) : Int)) } := by
      rw [getCell_modifyCell]
      rw [if_pos ⟨by omega, by omega, by rw [length_modifyCell]; omega,
        by rw [rowLen_modifyCell]; exact hcnl⟩]
      rw [hg1cell]
    have hcount : adjacentCount (modifyCell g rn cn
        (fun f => { f with isRevealed := true })) ((rn : Nat) : Int) ((cn : Nat) : Int) =
        neighborMines g ((rn : Nat) : Int) ((cn : Nat) : Int) := by
      rw [adjacentCount_eq_neighborMines _ rn cn (by
        rw [mineAt_modifyCell_pres g rn cn (fun f => { f with isRevealed := true })
          (fun x => rfl)]
        unfold mineAt
        exact hmm)]
      rw [neighborMines_modifyCell_pres g rn cn (fun f => { f with isRevealed := true })
        (fun x => rfl)]
    refine ⟨rfl, rfl, ?_, ?_⟩
    · rw [hg2cell, hcount, hz, Nat.zero_add]
    · intro r c hne
      have hcond : ¬(r = ((rn : Nat) : Int) ∧ c = ((cn : Nat) : Int) ∧
          rn < (modifyCell g rn cn (fun f => { f with isRevealed := true })).length ∧
          cn < ((modifyCell g rn cn
            (fun f => { f with isRevealed := true })).getD rn []).length) := by
        rintro ⟨h1, h2, _⟩
        exact hne ⟨h1, h2⟩
      rw [getCell_modifyCell, if_neg hcond, hframe1 r c hne]

/-- C1 witness: revealing (1,1) on the sample board (mines at (0,0) and
(1,2)) succeeds, keeps the player alive, sets the adjacency count, and
leaves (0,2) untouched. -/
theorem reveal_fresh_cell_spec_witness :
    (reveal sampleGrid ⟨1, 1⟩).2.2 = none ∧
    (reveal sampleGrid ⟨1, 1⟩).1 = !(getCell sampleGrid 1 1).isMine ∧
    getCell (reveal sampleGrid ⟨1, 1⟩).2.1 1 1 =
      { getCell sampleGrid 1 1 with
          isRevealed := true
          adjacentMines :=
            if (getCell sampleGrid 1 1).isMine then
              (getCell sampleGrid 1 1).adjacentMines
            else neighborMines sampleGrid 1 1 } ∧
    getCell (reveal sampleGrid ⟨1, 1⟩).2.1 0 2 = getCell sampleGrid 0 2 := by
  have h := reveal_fresh_cell_spec sampleGrid ⟨1, 1⟩ (by decide) (by decide) (by decide)
    (by decide)
  exact ⟨h.1, h.2.1, h.2.2.1, h.2.2.2 0 2 (by decide)⟩

/-- C2 (code bug): `internal/internal.go`'s `revealAll` assigns to the
`range` loop variable `field`, a copy of the slice element, so the grid
is never written: on the sample board the mine at (0,0) stays
unrevealed/unflagged after `revealAll(true)`, while the twin
implementation in `minesweeper.go` — which indexes `g[row][col]`
directly — reveals and flags it as the claim requires. -/
theorem revealAll_internal_noop_bug :
    (getCell sampleGrid 0 0).isMine = true ∧
    revealAllGrid sampleGrid true = sampleGrid ∧
    (getCell (revealAllGrid sampleGrid true) 0 0).isRevealed = false ∧
    (getCell (revealAllGrid sampleGrid true) 0 0).isFlagged = false ∧
    (getCell (mwRevealAllGrid sampleGrid true) 0 0).isRevealed = true ∧
    (getCell (mwRevealAllGrid sampleGrid true) 0 0).isFlagged = true := by
  decide

/-- C3: when `reveal` or `flag` fails — OutOfBounds for a coordinate
outside `[0,rows)×[0,cols)` (checked first), AlreadyRevealed for a
re-reveal — the returned board is exactly the one passed in. -/
theorem failed_ops_leave_grid_unchanged (g : grid) (coord : Coordinate) :
    (outOfBounds g coord.row coord.col →
      reveal g coord = (false, g, some "invalid row or column") ∧
      flag g coord = (g, some "invalid row or column")) ∧
    (¬ outOfBounds g coord.row coord.col →
      (getCell g coord.row coord.col).isRevealed = true →
      reveal g coord = (false, g, some "already defused")) ∧
    (∀ b g2 e, reveal g coord = (b, g2, some e) → g2 = g) ∧
    (∀ g2 e, flag g coord = (g2, some e) → g2 = g) := by
  refine ⟨?_, ?_, ?_, ?_⟩
  · intro h
    constructor
    · simp only [reveal]
      rw [if_pos h]
    · simp only [flag]
      rw [if_pos h]
  · intro h1 h2
    simp only [reveal]
    rw [if_neg h1, if_pos h2]
  · intro b g2 e h
    by_cases h1 : outOfBounds g coord.row coord.col
    · simp only [reveal] at h
      rw [if_pos h1] at h
      simp only [Prod.mk.injEq] at h
      exact h.2.1.symm
    · by_cases h2 : (getCell g coord.row coord.col).isRevealed = true
      · simp only [reveal] at h
        rw [if_neg h1, if_pos h2] at h
        simp only [Prod.mk.injEq] at h
        exact h.2.1.symm
      · simp only [reveal] at h
        rw [if_neg h1, if_neg h2] at h
        split_ifs at h
        · simp only [Prod.mk.injEq] at h
          exact absurd h.2.2 (by simp)
        · simp only [Prod.mk.injEq] at h
          exact absurd h.2.2 (by simp)
  · intro g2 e h
    by_cases h1 : outOfBounds g coord.row coord.col
    · simp only [flag] at h
      rw [if_pos h1] at h
      simp only [Prod.mk.injEq] at h
      exact h.1.symm
    · simp only [flag] at h
      rw [if_neg h1] at h
      simp only [Prod.mk.injEq] at h
      exact absurd h.2 (by simp)

/-- C3 witness: an out-of-bounds reveal and flag on the sample board fail
with the OutOfBounds error and return the board unchanged. -/
theorem failed_ops_witness :
    reveal sampleGrid ⟨5, 0⟩ = (false, sampleGrid, some "invalid row or column") ∧
    flag sampleGrid ⟨5, 0⟩ = (sampleGrid, some "invalid row or column") :=
  (failed_ops_leave_grid_unchanged sampleGrid ⟨5, 0⟩).1 (by decide)

/-- C7: on an in-bounds coordinate of a (rectangular) board, `flag`
always succeeds — there is no check of `isRevealed`, so flagging a
revealed cell is not rejected — and flips exactly the target cell's
`isFlagged` bit; flagging the same cell twice restores the whole
board. -/
theorem flag_toggles_exactly (g : grid) (coord : Coordinate)
    (hrect : Rectangular g)
    (hin : ¬ outOfBounds g coord.row coord.col) :
    (flag g coord).2 = none ∧
    getCell (flag g coord).1 coord.row coord.col =
      { getCell g coord.row coord.col with
          isFlagged := !(getCell g coord.row coord.col).isFlagged } ∧
    (∀ r c : Int, ¬(r = coord.row ∧ c = coord.col) →
      getCell (flag g coord).1 r c = getCell g r c) ∧
    (flag (flag g coord).1 coord).1 = g := by
  have hb : 0 ≤ coord.row ∧ coord.row < (g.length : Int) ∧ 0 ≤ coord.col ∧
      coord.col < (cols g : Int) := by
    unfold outOfBounds rows at hin
    push_neg at hin
    exact ⟨by omega, by omega, by omega, by omega⟩
  obtain ⟨rn, hrn⟩ : ∃ n : Nat, coord.row = (n : Int) := ⟨coord.row.toNat, by omega⟩
  obtain ⟨cn, hcn⟩ : ∃ n : Nat, coord.col = (n : Int) := ⟨coord.col.toNat, by omega⟩
  have htn1 : coord.row.toNat = rn := by omega
  have htn2 : coord.col.toNat = cn := by omega
  have hrnl : rn < g.length := by omega
  have hcnl : cn < (g.getD rn []).length := by rw [hrect rn hrnl]; omega
  have hflag : flag g coord = (modifyCell g rn cn
      (fun f => { f with isFlagged := !f.isFlagged }), none) := by
    simp only [flag]
    rw [if_neg hin, htn1, htn2]
  rw [hrn, hcn]
  rw [hflag]
  refine ⟨rfl, ?_, ?_, ?_⟩
  · rw [getCell_modifyCell, if_pos ⟨rfl, rfl, hrnl, hcnl⟩]
  · intro r c hne
    rw [getCell_modifyCell, if_neg (by rintro ⟨e1, e2, _⟩; exact hne ⟨e1, e2⟩)]
  · show (flag (modifyCell g rn cn (fun f => { f with isFlagged := !f.isFlagged }))
      coord).1 = g
    have hoob2 : ¬ outOfBounds (modifyCell g rn cn
        (fun f => { f with isFlagged := !f.isFlagged })) coord.row coord.col := by
      rw [outOfBounds_modifyCell]
      exact hin
    simp only [flag]
    rw [if_neg hoob2, htn1, htn2]
    show modifyCell (modifyCell g rn cn (fun f => { f with isFlagged := !f.isFlagged }))
      rn cn (fun f => { f with isFlagged := !f.isFlagged }) = g
    rw [modifyCell_modifyCell]
    rw [modifyCell_congr g rn cn _ (fun x => x) (fun x => by cases x; simp)]
    exact modifyCell_id g rn cn

/-- C7 witness: flagging (0,0) on the sample board succeeds and a second
flag restores the board. -/
theorem flag_toggles_witness :
    (flag sampleGrid ⟨0, 0⟩).2 = none ∧
    (flag (flag sampleGrid ⟨0, 0⟩).1 ⟨0, 0⟩).1 = sampleGrid := by
  have h := flag_toggles_exactly sampleGrid ⟨0, 0⟩ (by decide) (by decide)
  exact ⟨h.1, h.2.2.2⟩

/-- C9: every operation of both variants preserves every cell's `isMine`
and hence the total mine count: the mine layout is fixed at
construction. -/
theorem mines_fixed_by_ops (g : grid) (coord : Coordinate) (v : Bool) (r c : Int) :
    (getCell (reveal g coord).2.1 r c).isMine = (getCell g r c).isMine ∧
    minesCount (reveal g coord).2.1 = minesCount g ∧
    (getCell (flag g coord).1 r c).isMine = (getCell g r c).isMine ∧
    minesCount (flag g coord).1 = minesCount g ∧
    (getCell (revealAllGrid g v) r c).isMine = (getCell g r c).isMine ∧
    minesCount (revealAllGrid g v) = minesCount g ∧
    (getCell (mwReveal g coord).2.1 r c).isMine = (getCell g r c).isMine ∧
    minesCount (mwReveal g coord).2.1 = minesCount g ∧
    (getCell (mwFlag g coord).1 r c).isMine = (getCell g r c).isMine ∧
    minesCount (mwFlag g coord).1 = minesCount g ∧
    (getCell (mwRevealAllGrid g v) r c).isMine = (getCell g r c).isMine ∧
    minesCount (mwRevealAllGrid g v) = minesCount g := by
  have hrev1 : (getCell (reveal g coord).2.1 r c).isMine = (getCell g r c).isMine := by
    obtain h | h | h := reveal_grid_forms g coord <;> rw [h]
    · rw [getCell_modifyCell]
      split_ifs <;> rfl
    · rw [getCell_modifyCell, getCell_modifyCell]
      split_ifs <;> rfl
  have hrev2 : minesCount (reveal g coord).2.1 = minesCount g := by
    obtain h | h | h := reveal_grid_forms g coord <;> rw [h]
    · exact minesCount_modifyCell_pres _ _ _ _ (fun x => rfl)
    · have e1 := minesCount_modifyCell_pres (modifyCell g coord.row.toNat coord.col.toNat
          (fun f => { f with isRevealed := true })) coord.row.toNat coord.col.toNat
          (fun f => { f with adjacentMines := (f.adjacentMines +
            adjacentCount (modifyCell g coord.row.toNat coord.col.toNat
              (fun f => { f with isRevealed := true })) coord.row coord.col) })
          (fun x => rfl)
      rw [e1]
      exact minesCount_modifyCell_pres _ _ _ _ (fun x => rfl)
  have hfl1 : (getCell (flag g coord).1 r c).isMine = (getCell g r c).isMine := by
    simp only [flag]
    split_ifs
    · rfl
    · show (getCell (modifyCell g coord.row.toNat coord.col.toNat
        (fun f => { f with isFlagged := !f.isFlagged })) r c).isMine =
        (getCell g r c).isMine
      rw [getCell_modifyCell]
      split_ifs <;> rfl
  have hfl2 : minesCount (flag g coord).1 = minesCount g := by
    simp only [flag]
    split_ifs
    · rfl
    · exact minesCount_modifyCell_pres _ _ _ _ (fun x => rfl)
  have hmwg : (mwReveal g coord).2.1 = (reveal g coord).2.1 :=
    congrArg Prod.fst (mwReveal_eq_snd g coord)
  have hmwf : ∀ x : field,
      (if x.isMine then { x with isRevealed := true, isFlagged := v }
        else x).isMine = x.isMine := by
    intro x
    cases hx : x.isMine <;> simp [hx]
  refine ⟨hrev1, hrev2, hfl1, hfl2, ?_, ?_, ?_, ?_, ?_, ?_, ?_, ?_⟩
  · rw [revealAllGrid_eq_self]
  · rw [revealAllGrid_eq_self]
  · rw [hmwg]
    exact hrev1
  · rw [hmwg]
    exact hrev2
  · rw [mwFlag_eq]
    exact hfl1
  · rw [mwFlag_eq]
    exact hfl2
  · unfold mwRevealAllGrid
    rw [getCell_mapGrid _ _ (by rfl)]
    exact hmwf (getCell g r c)
  · exact minesCount_mapGrid g _ (fun x => hmwf x)

/-- C10: revealing is monotone: no operation of either variant turns a
cell's `isRevealed` from true back to false. -/
theorem reveal_monotone (g : grid) (coord : Coordinate) (v : Bool) (r c : Int)
    (h : (getCell g r c).isRevealed = true) :
    (getCell (reveal g coord).2.1 r c).isRevealed = true ∧
    (getCell (flag g coord).1 r c).isRevealed = true ∧
    (getCell (revealAllGrid g v) r c).isRevealed = true ∧
    (getCell (mwReveal g coord).2.1 r c).isRevealed = true ∧
    (getCell (mwFlag g coord).1 r c).isRevealed = true ∧
    (getCell (mwRevealAllGrid g v) r c).isRevealed = true := by
  have h1 : (getCell (reveal g coord).2.1 r c).isRevealed = true := by
    obtain hf | hf | hf := reveal_grid_forms g coord <;> rw [hf]
    · exact h
    · rw [getCell_modifyCell]
      split_ifs
      · rfl
      · exact h
    · rw [getCell_modifyCell, getCell_modifyCell]
      split_ifs <;> first | rfl | exact h
  have h2 : (getCell (flag g coord).1 r c).isRevealed = true := by
    simp only [flag]
    split_ifs
    · exact h
    · show (getCell (modifyCell g coord.row.toNat coord.col.toNat
        (fun f => { f with isFlagged := !f.isFlagged })) r c).isRevealed = true
      rw [getCell_modifyCell]
      split_ifs
      · exact h
      · exact h
  refine ⟨h1, h2, ?_, ?_, ?_, ?_⟩
  · rw [revealAllGrid_eq_self]
    exact h
  · rw [congrArg Prod.fst (mwReveal_eq_snd g coord)]
    exact h1
  · rw [mwFlag_eq]
    exact h2
  · unfold mwRevealAllGrid
    rw [getCell_mapGrid _ _ (by rfl)]
    show (if (getCell g r c).isMine then
        { getCell g r c with isRevealed := true, isFlagged := v }
      else getCell g r c).isRevealed = true
    split_ifs
    · rfl
    · exact h

/-- A sample board with (1,1) revealed, for the monotonicity witness. -/
def revealedSample : grid := (reveal sampleGrid ⟨1, 1⟩).2.1

/-- C10 witness: with (1,1) already revealed, reveal/flag/revealAll of
both variants keep it revealed. -/
theorem reveal_monotone_witness :
    (getCell (reveal revealedSample ⟨2, 2⟩).2.1 1 1).isRevealed = true ∧
    (getCell (flag revealedSample ⟨2, 2⟩).1 1 1).isRevealed = true ∧
    (getCell (revealAllGrid revealedSample false) 1 1).isRevealed = true ∧
    (getCell (mwReveal revealedSample ⟨2, 2⟩).2.1 1 1).isRevealed = true ∧
    (getCell (mwFlag revealedSample ⟨2, 2⟩).1 1 1).isRevealed = true ∧
    (getCell (mwRevealAllGrid revealedSample false) 1 1).isRevealed = true :=
  reveal_monotone revealedSample ⟨2, 2⟩ false 1 1 (by decide)

theorem placeMines_error_val (ms : List Coordinate) (g : grid) (e : String)
    (h : placeMines g ms = Except.error e) : e = "invalid mine" := by
  induction ms generalizing g with
  | nil => simp [placeMines] at h
  | cons m rest ih =>
    simp only [placeMines] at h
    split_ifs at h with h1
    · injection h with h2
      exact h2.symm
    · exact ih _ h

theorem placeMines_err (ms : List Coordinate) (g : grid) (rn cn : Nat)
    (hsh : GridShape g rn cn) (hr : 0 < rn)
    (hbad : ∃ m ∈ ms, m.row < 0 ∨ (rn : Int) ≤ m.row ∨ m.col < 0 ∨ (cn : Int) ≤ m.col) :
    placeMines g ms = Except.error "invalid mine" := by
  induction ms generalizing g with
  | nil =>
    obtain ⟨m, hm, _⟩ := hbad
    simp at hm
  | cons m rest ih =>
    simp only [placeMines]
    by_cases h1 : outOfBounds g m.row m.col
    · rw [if_pos h1]
    · rw [if_neg h1]
      obtain ⟨m0, hm0, hb⟩ := hbad
      rcases List.mem_cons.mp hm0 with he | hmem
      · exfalso
        rw [outOfBounds_shape g rn cn m.row m.col hsh hr] at h1
        rw [he] at hb
        omega
      · exact ih _ (gridShape_modifyCell g rn cn _ _ _ hsh) ⟨m0, hmem, hb⟩

theorem placeMines_ok (ms : List Coordinate) (g : grid) (rn cn : Nat)
    (hsh : GridShape g rn cn) (hr : 0 < rn)
    (hin : ∀ m ∈ ms, 0 ≤ m.row ∧ m.row < (rn : Int) ∧ 0 ≤ m.col ∧ m.col < (cn : Int)) :
    ∃ g2, placeMines g ms = Except.ok g2 ∧ GridShape g2 rn cn := by
  induction ms generalizing g with
  | nil => exact ⟨g, rfl, hsh⟩
  | cons m rest ih =>
    have hm := hin m (List.mem_cons_self m rest)
    simp only [placeMines]
    rw [if_neg (by rw [outOfBounds_shape g rn cn m.row m.col hsh hr]; omega)]
    exact ih _ (gridShape_modifyCell g rn cn _ _ _ hsh)
      (fun m2 hm2 => hin m2 (List.mem_cons_of_mem m hm2))

theorem placeMines_count (ms : List Coordinate) (g : grid) (rn cn : Nat)
    (hsh : GridShape g rn cn) (hr : 0 < rn)
    (hin : ∀ m ∈ ms, 0 ≤ m.row ∧ m.row < (rn : Int) ∧ 0 ≤ m.col ∧ m.col < (cn : Int))
    (hnd : ms.Nodup)
    (hfresh : ∀ m ∈ ms, (getCell g m.row m.col).isMine = false) :
    ∃ g2, placeMines g ms = Except.ok g2 ∧
      minesCount g2 = minesCount g + ms.length := by
  induction ms generalizing g with
  | nil => exact ⟨g, rfl, by simp⟩
  | cons m rest ih =>
    have hm := hin m (List.mem_cons_self m rest)
    simp only [placeMines]
    rw [if_neg (by rw [outOfBounds_shape g rn cn m.row m.col hsh hr]; omega)]
    have hsh2 := gridShape_modifyCell g rn cn m.row.toNat m.col.toNat
      (fun f => { f with isMine := true }) hsh
    have hrowlen : (g.getD m.row.toNat []).length = cn := hsh.2 m.row.toNat (by omega)
    have hb1 : m.row.toNat < g.length := by rw [hsh.1]; omega
    have hb2 : m.col.toNat < (g.getD m.row.toNat []).length := by rw [hrowlen]; omega
    have hmc : minesCount (modifyCell g m.row.toNat m.col.toNat
        (fun x => { x with isMine := true })) = minesCount g + 1 := by
      apply minesCount_modifyCell_set g m.row.toNat m.col.toNat hb1 hb2
      have hf := hfresh m (List.mem_cons_self m rest)
      unfold getCell at hf
      rw [if_neg (by omega)] at hf
      exact hf
    obtain ⟨g2, hok, hcount⟩ := ih (modifyCell g m.row.toNat m.col.toNat
        (fun f => { f with isMine := true })) hsh2
      (fun m2 hm2 => hin m2 (List.mem_cons_of_mem m hm2))
      (List.Nodup.of_cons hnd)
      (fun m2 hm2 => by
        rw [getCell_modifyCell]
        rw [if_neg (by
          rintro ⟨e1, e2, _⟩
          have hm2b := hin m2 (List.mem_cons_of_mem m hm2)
          have heq : m2 = m := by
            cases m2
            cases m
            simp only [Coordinate.mk.injEq]
            simp only at e1 e2 hm2b hm ⊢
            constructor <;> omega
          rw [heq] at hm2
          exact (List.nodup_cons.mp hnd).1 hm2)]
        exact hfresh m2 (List.mem_cons_of_mem m hm2))
    refine ⟨g2, hok, ?_⟩
    rw [hcount, hmc]
    simp only [List.length_cons]
    omega

/-- C4: `NewGrid` fails with InvalidSize exactly when rows or cols lies
outside `[3,9]` (size is checked before mines); with a valid size it
fails with InvalidMine when some supplied mine is out of bounds, and
succeeds when all are in bounds; with pairwise distinct in-bounds mines
the resulting board's mine count equals the number of mines supplied
(any list of distinct in-bounds coordinates has length at most
rows*cols, covering every count in [0, rows*cols]). -/
theorem newGrid_validation (numRows numCols : Int) (ms : List Coordinate) :
    (NewGrid numRows numCols ms = Except.error "invalid grid size" ↔
      (numRows < 3 ∨ 9 < numRows ∨ numCols < 3 ∨ 9 < numCols)) ∧
    (¬(numRows < 3 ∨ 9 < numRows ∨ numCols < 3 ∨ 9 < numCols) →
      (∃ m ∈ ms, m.row < 0 ∨ numRows ≤ m.row ∨ m.col < 0 ∨ numCols ≤ m.col) →
      NewGrid numRows numCols ms = Except.error "invalid mine") ∧
    (¬(numRows < 3 ∨ 9 < numRows ∨ numCols < 3 ∨ 9 < numCols) →
      (∀ m ∈ ms, 0 ≤ m.row ∧ m.row < numRows ∧ 0 ≤ m.col ∧ m.col < numCols) →
      ∃ g, NewGrid numRows numCols ms = Except.ok g) ∧
    (¬(numRows < 3 ∨ 9 < numRows ∨ numCols < 3 ∨ 9 < numCols) →
      (∀ m ∈ ms, 0 ≤ m.row ∧ m.row < numRows ∧ 0 ≤ m.col ∧ m.col < numCols) →
      ms.Nodup →
      ∃ g, NewGrid numRows numCols ms = Except.ok g ∧ minesCount g = ms.length) := by
  by_cases hsz : numRows < 3 ∨ 9 < numRows ∨ numCols < 3 ∨ 9 < numCols
  · refine ⟨⟨fun _ => hsz, fun _ => ?_⟩, fun h => absurd hsz h, fun h => absurd hsz h,
      fun h => absurd hsz h⟩
    simp only [NewGrid]
    rw [if_pos hsz]
  · have hsh := gridShape_replicate numRows.toNat numCols.toNat
    have hr : 0 < numRows.toNat := by omega
    have hng : NewGrid numRows numCols ms = placeMines (List.replicate numRows.toNat
        (List.replicate numCols.toNat zeroField)) ms := by
      simp only [NewGrid]
      rw [if_neg hsz]
    refine ⟨?_, ?_, ?_, ?_⟩
    · rw [hng]
      refine ⟨fun h => absurd (placeMines_error_val ms _ _ h) (by decide),
        fun h => absurd h hsz⟩
    · intro _ hbad
      rw [hng]
      apply placeMines_err ms _ numRows.toNat numCols.toNat hsh hr
      obtain ⟨m, hm, hb⟩ := hbad
      exact ⟨m, hm, by omega⟩
    · intro _ hin
      rw [hng]
      obtain ⟨g2, hok, _⟩ := placeMines_ok ms _ numRows.toNat numCols.toNat hsh hr
        (fun m hm => ⟨(hin m hm).1, by have := (hin m hm).2.1; omega,
          (hin m hm).2.2.1, by have := (hin m hm).2.2.2; omega⟩)
      exact ⟨g2, hok⟩
    · intro _ hin hnd
      rw [hng]
      obtain ⟨g2, hok, hcnt⟩ := placeMines_count ms _ numRows.toNat numCols.toNat hsh hr
        (fun m hm => ⟨(hin m hm).1, by have := (hin m hm).2.1; omega,
          (hin m hm).2.2.1, by have := (hin m hm).2.2.2; omega⟩)
        hnd
        (fun m hm => by rw [getCell_replicate]; rfl)
      refine ⟨g2, hok, ?_⟩
      rw [hcnt, minesCount_replicate]
      omega

/-- C4 witness: a 3×3 board with the two distinct mines (0,0) and (1,2)
is built successfully and reports exactly 2 mines. -/
theorem newGrid_validation_witness :
    ∃ g, NewGrid 3 3 [⟨0, 0⟩, ⟨1, 2⟩] = Except.ok g ∧ minesCount g = 2 := by
  have h := (newGrid_validation 3 3 [⟨0, 0⟩, ⟨1, 2⟩]).2.2.2 (by decide) (by decide)
    (by decide)
  simpa using h

/-- C5 counterexample: on the sample board the two variants' `revealAll`
end in different states — the claim that every operation sequence leaves
both variants in the same cell states is false. -/
theorem variants_differ_on_revealAll :
    mwRevealAllGrid sampleGrid true ≠ revealAllGrid sampleGrid true := by
  decide

/-- C5 (amended): the two variants agree on construction (with mine lists
modelling non-nil slices), on `flag`, on `reveal`'s resulting grid and
error, and on `reveal`'s stillAlive value whenever no error occurs; they
differ in `revealAll` — the internal variant's leaves the grid unchanged
(Go range-copy slip) while the standalone variant reveals and flags
every mine cell — and in the stillAlive value returned alongside an
error: false in the internal variant, true in the standalone one. -/
theorem variants_agree_except_revealAll :
    (∀ g coord, (mwReveal g coord).2 = (reveal g coord).2) ∧
    (∀ g coord, (reveal g coord).2.2 = none →
      (mwReveal g coord).1 = (reveal g coord).1) ∧
    (∀ g coord, (reveal g coord).2.2 ≠ none →
      (reveal g coord).1 = false ∧ (mwReveal g coord).1 = true) ∧
    (∀ g coord, mwFlag g coord = flag g coord) ∧
    (∀ nr nc ms, mwNewGrid nr nc ms = NewGrid nr nc ms) ∧
    (∀ g v, revealAllGrid g v = g) ∧
    (∀ g v r c, getCell (mwRevealAllGrid g v) r c =
      (if (getCell g r c).isMine then
        { getCell g r c with isRevealed := true, isFlagged := v }
      else getCell g r c)) := by
  refine ⟨mwReveal_eq_snd, ?_, ?_, mwFlag_eq, mwNewGrid_eq, revealAllGrid_eq_self, ?_⟩
  · intro g coord h
    simp only [reveal, mwReveal] at h ⊢
    split_ifs at h ⊢ <;> rfl
  · intro g coord h
    simp only [reveal, mwReveal] at h ⊢
    split_ifs at h ⊢ <;> first | exact ⟨rfl, rfl⟩ | exact absurd rfl h
  · intro g v r c
    unfold mwRevealAllGrid
    rw [getCell_mapGrid _ _ (by rfl)]

/-- C6 counterexample: the line "02", whose first character is not a
digit in 1–9, does not yield a parse error: `strconv.Atoi` accepts '0'
and the parser returns coordinate (-1, 1) (only later rejected by the
board's bounds check). -/
theorem readAndParseInput_accepts_zero :
    readAndParseInput "02".toList = Except.ok (⟨-1, 1⟩, false) := by
  rfl

/-- C6 (amended): the parser accepts exactly the 2- or 3-character lines
whose first two characters are decimal digits 0–9 (not just 1–9: Atoi on
a one-character substring accepts '0' as well) and whose third
character, when present, is the literal 'f'; each digit is decremented
('0' maps to -1, '1'–'9' to 0–8), and a third character requests
flagging; all the claim's concrete examples behave as stated. -/
theorem readAndParseInput_grammar :
    (∀ a b : Char, readAndParseInput [a, b] =
      (if ('0' ≤ a ∧ a ≤ '9') ∧ ('0' ≤ b ∧ b ≤ '9') then
        Except.ok (⟨(a.toNat : Int) - ('0'.toNat : Int) - 1,
          (b.toNat : Int) - ('0'.toNat : Int) - 1⟩, false)
      else Except.error "invalid input")) ∧
    (∀ a b c : Char, readAndParseInput [a, b, c] =
      (if ('0' ≤ a ∧ a ≤ '9') ∧ ('0' ≤ b ∧ b ≤ '9') ∧ c = 'f' then
        Except.ok (⟨(a.toNat : Int) - ('0'.toNat : Int) - 1,
          (b.toNat : Int) - ('0'.toNat : Int) - 1⟩, true)
      else Except.error "invalid input")) ∧
    (∀ input : List Char, input.length < 2 ∨ 3 < input.length →
      readAndParseInput input = Except.error "invalid input") ∧
    readAndParseInput "22".toList = Except.ok (⟨1, 1⟩, false) ∧
    readAndParseInput "13f".toList = Except.ok (⟨0, 2⟩, true) ∧
    readAndParseInput "1".toList = Except.error "invalid input" ∧
    readAndParseInput "abc".toList = Except.error "invalid input" ∧
    readAndParseInput "123x".toList = Except.error "invalid input" := by
  refine ⟨?_, ?_, ?_, by rfl, by rfl, by rfl, by rfl, by rfl⟩
  · intro a b
    by_cases h1 : '0' ≤ a ∧ a ≤ '9'
    · by_cases h2 : '0' ≤ b ∧ b ≤ '9'
      · rw [if_pos ⟨h1, h2⟩]
        simp [readAndParseInput, atoiChar, h1, h2]
      · rw [if_neg (fun hc => h2 hc.2)]
        simp [readAndParseInput, atoiChar, h1, h2]
    · rw [if_neg (fun hc => h1 hc.1)]
      simp [readAndParseInput, atoiChar, h1]
  · intro a b c
    by_cases h1 : '0' ≤ a ∧ a ≤ '9'
    · by_cases h2 : '0' ≤ b ∧ b ≤ '9'
      · by_cases h3 : c = 'f'
        · rw [if_pos ⟨h1, h2, h3⟩]
          simp [readAndParseInput, atoiChar, h1, h2, h3]
        · rw [if_neg (fun hc => h3 hc.2.2)]
          simp [readAndParseInput, atoiChar, h1, h2, h3]
      · rw [if_neg (fun hc => h2 hc.2.1)]
        simp [readAndParseInput, atoiChar, h1, h2]
    · rw [if_neg (fun hc => h1 hc.1)]
      simp [readAndParseInput, atoiChar, h1]
  · intro input hlen
    simp only [readAndParseInput]
    rw [if_pos hlen]

theorem allCoordinates_length (numRows numCols : Nat) :
    (allCoordinates numRows numCols).length = numRows * numCols := by
  unfold allCoordinates
  rw [List.length_map]
  have h := List.length_product (List.range numRows) (List.range numCols)
  rw [List.length_range, List.length_range] at h
  exact h

theorem allCoordinates_nodup (numRows numCols : Nat) :
    (allCoordinates numRows numCols).Nodup := by
  unfold allCoordinates
  apply List.Nodup.map
  · rintro ⟨a, b⟩ ⟨c, d⟩ hpq
    simp only [Coordinate.mk.injEq] at hpq
    have h1 : a = c := by omega
    have h2 : b = d := by omega
    simp [h1, h2]
  · exact (List.nodup_range numRows).product (List.nodup_range numCols)

theorem allCoordinates_mem (numRows numCols : Nat) (m : Coordinate)
    (h : m ∈ allCoordinates numRows numCols) :
    0 ≤ m.row ∧ m.row < (numRows : Int) ∧ 0 ≤ m.col ∧ m.col < (numCols : Int) := by
  unfold allCoordinates at h
  obtain ⟨p, hp, hm⟩ := List.mem_map.mp h
  have hmem := List.mem_product.mp hp
  have h1 := List.mem_range.mp hmem.1
  have h2 := List.mem_range.mp hmem.2
  rw [← hm]
  show 0 ≤ (p.1 : Int) ∧ (p.1 : Int) < (numRows : Int) ∧ 0 ≤ (p.2 : Int) ∧
    (p.2 : Int) < (numCols : Int)
  omega

/-- C8: with the random shuffle modelled as an arbitrary permutation of
the row-major list of all board coordinates, `NewMines` returns exactly
`count` pairwise-distinct coordinates, each within
`[0,rows) × [0,cols)`. -/
theorem newMines_distinct_inbounds (numRows numCols count : Nat)
    (shuffled : List Coordinate)
    (hperm : shuffled.Perm (allCoordinates numRows numCols))
    (hcount : count ≤ numRows * numCols) :
    (NewMines count shuffled).length = count ∧
    (NewMines count shuffled).Nodup ∧
    ∀ m ∈ NewMines count shuffled,
      0 ≤ m.row ∧ m.row < (numRows : Int) ∧ 0 ≤ m.col ∧ m.col < (numCols : Int) := by
  have hlen : shuffled.length = numRows * numCols := by
    rw [hperm.length_eq, allCoordinates_length]
  have hnd : shuffled.Nodup :=
    hperm.nodup_iff.mpr (allCoordinates_nodup numRows numCols)
  refine ⟨?_, ?_, ?_⟩
  · unfold NewMines
    rw [List.length_take, hlen]
    omega
  · exact hnd.sublist (List.take_sublist count shuffled)
  · intro m hm
    have hms : m ∈ shuffled := List.mem_of_mem_take hm
    exact allCoordinates_mem numRows numCols m (hperm.mem_iff.mp hms)

/-- C8 witness: taking 3 of the 9 coordinates of a 3×3 board (identity
permutation) yields 3 distinct in-bounds coordinates. -/
theorem newMines_distinct_inbounds_witness :
    (NewMines 3 (allCoordinates 3 3)).length = 3 ∧
    (NewMines 3 (allCoordinates 3 3)).Nodup ∧
    ∀ m ∈ NewMines 3 (allCoordinates 3 3),
      0 ≤ m.row ∧ m.row < (3 : Int) ∧ 0 ≤ m.col ∧ m.col < (3 : Int) :=
  newMines_distinct_inbounds 3 3 3 (allCoordinates 3 3) (List.Perm.refl _) (by omega)

/- ----------------------------------------------------------------- -/
/- Supporting development: the hypotheses of `reveal_fresh_cell_spec`  -/
/- (rectangular board, unrevealed cells with zero counters) hold for   -/
/- every board the program constructs and are preserved by every       -/
/- operation.                                                          -/
/- ----------------------------------------------------------------- -/

theorem placeMines_shape (ms : List Coordinate) (g g2 : grid) (rn cn : Nat)
    (h : placeMines g ms = Except.ok g2) (hsh : GridShape g rn cn) :
    GridShape g2 rn cn := by
  induction ms generalizing g with
  | nil =>
    simp only [placeMines] at h
    injection h with h2
    rw [← h2]
    exact hsh
  | cons m rest ih =>
    simp only [placeMines] at h
    split_ifs at h with h1
    exact ih _ h (gridShape_modifyCell _ _ _ _ _ _ hsh)

theorem placeMines_cell_pres (ms : List Coordinate) (g g2 : grid)
    (h : placeMines g ms = Except.ok g2) (r c : Int) :
    (getCell g2 r c).adjacentMines = (getCell g r c).adjacentMines ∧
    (getCell g2 r c).isRevealed = (getCell g r c).isRevealed := by
  induction ms generalizing g with
  | nil =>
    simp only [placeMines] at h
    injection h with h2
    rw [← h2]
    exact ⟨rfl, rfl⟩
  | cons m rest ih =>
    simp only [placeMines] at h
    split_ifs at h with h1
    obtain ⟨ha, hb⟩ := ih _ h
    rw [getCell_modifyCell] at ha hb
    constructor
    · rw [ha]
      split_ifs <;> rfl
    · rw [hb]
      split_ifs <;> rfl

/-- Every board `NewGrid` returns is rectangular and has every cell
unrevealed with a zero `adjacentMines` counter. -/
theorem newGrid_cells_fresh (numRows numCols : Int) (ms : List Coordinate) (g2 : grid)
    (h : NewGrid numRows numCols ms = Except.ok g2) (r c : Int) :
    Rectangular g2 ∧ (getCell g2 r c).adjacentMines = 0 ∧
    (getCell g2 r c).isRevealed = false := by
  simp only [NewGrid] at h
  split_ifs at h with hsz
  have hsh2 := placeMines_shape ms _ g2 numRows.toNat numCols.toNat h
    (gridShape_replicate numRows.toNat numCols.toNat)
  have hrpos : 0 < numRows.toNat := by omega
  obtain ⟨ha, hb⟩ := placeMines_cell_pres ms _ g2 h r c
  refine ⟨?_, ?_, ?_⟩
  · intro i hi
    rw [cols_of_shape g2 _ _ hsh2 hrpos]
    exact hsh2.2 i (by rw [← hsh2.1]; exact hi)
  · rw [ha, getCell_replicate]
    rfl
  · rw [hb, getCell_replicate]
    rfl

/-- The invariant "an unrevealed cell's `adjacentMines` is zero" is
preserved by `reveal`, `flag` and (both variants of) `revealAll`: the
only write to a counter goes to the cell being revealed.  Together with
`newGrid_cells_fresh` this discharges `reveal_fresh_cell_spec`'s `hz`
hypothesis along every play of the game. -/
theorem unrevealed_zero_invariant (g : grid) (coord : Coordinate) (v : Bool)
    (hinv : ∀ r c : Int, (getCell g r c).isRevealed = false →
      (getCell g r c).adjacentMines = 0) :
    (∀ r c : Int, (getCell (reveal g coord).2.1 r c).isRevealed = false →
      (getCell (reveal g coord).2.1 r c).adjacentMines = 0) ∧
    (∀ r c : Int, (getCell (flag g coord).1 r c).isRevealed = false →
      (getCell (flag g coord).1 r c).adjacentMines = 0) ∧
    (∀ r c : Int, (getCell (revealAllGrid g v) r c).isRevealed = false →
      (getCell (revealAllGrid g v) r c).adjacentMines = 0) ∧
    (∀ r c : Int, (getCell (mwRevealAllGrid g v) r c).isRevealed = false →
      (getCell (mwRevealAllGrid g v) r c).adjacentMines = 0) := by
  refine ⟨?_, ?_, ?_, ?_⟩
  · intro r c hrc
    obtain hf | hf | hf := reveal_grid_forms g coord <;> rw [hf] at hrc ⊢
    · exact hinv r c hrc
    · rw [getCell_modifyCell] at hrc ⊢
      split_ifs at hrc ⊢
      exact hinv r c hrc
    · rw [getCell_modifyCell, getCell_modifyCell] at hrc ⊢
      by_cases hcond : r = ((coord.row.toNat : Nat) : Int) ∧
          c = ((coord.col.toNat : Nat) : Int) ∧ coord.row.toNat < g.length ∧
          coord.col.toNat < (g.getD coord.row.toNat []).length
      · have hcond2 : r = ((coord.row.toNat : Nat) : Int) ∧
            c = ((coord.col.toNat : Nat) : Int) ∧
            coord.row.toNat < (modifyCell g coord.row.toNat coord.col.toNat
              (fun f => { f with isRevealed := true })).length ∧
            coord.col.toNat < ((modifyCell g coord.row.toNat coord.col.toNat
              (fun f => { f with isRevealed := true })).getD coord.row.toNat []).length := by
          refine ⟨hcond.1, hcond.2.1, ?_, ?_⟩
          · rw [length_modifyCell]
            exact hcond.2.2.1
          · rw [rowLen_modifyCell]
            exact hcond.2.2.2
        rw [if_pos hcond2, if_pos hcond] at hrc
        simp at hrc
      · have hcond2 : ¬(r = ((coord.row.toNat : Nat) : Int) ∧
            c = ((coord.col.toNat : Nat) : Int) ∧
            coord.row.toNat < (modifyCell g coord.row.toNat coord.col.toNat
              (fun f => { f with isRevealed := true })).length ∧
            coord.col.toNat < ((modifyCell g coord.row.toNat coord.col.toNat
              (fun f => { f with isRevealed := true })).getD coord.row.toNat []).length) := by
          intro hx
          refine hcond ⟨hx.1, hx.2.1, ?_, ?_⟩
          · rw [← length_modifyCell g coord.row.toNat coord.col.toNat
              (fun f => { f with isRevealed := true })]
            exact hx.2.2.1
          · rw [← rowLen_modifyCell g coord.row.toNat coord.col.toNat coord.row.toNat
              (fun f => { f with isRevealed := true })]
            exact hx.2.2.2
        rw [if_neg hcond2, if_neg hcond] at hrc ⊢
        exact hinv r c hrc
  · intro r c hrc
    simp only [flag] at hrc ⊢
    split_ifs at hrc ⊢
    · exact hinv r c hrc
    · rw [getCell_modifyCell] at hrc ⊢
      split_ifs at hrc ⊢
      · exact hinv r c hrc
      · exact hinv r c hrc
  · intro r c hrc
    rw [revealAllGrid_eq_self] at hrc ⊢
    exact hinv r c hrc
  · intro r c hrc
    unfold mwRevealAllGrid at hrc ⊢
    rw [getCell_mapGrid _ _ (by rfl)] at hrc ⊢
    by_cases hm : (getCell g r c).isMine = true
    · rw [if_pos hm] at hrc
      simp at hrc
    · rw [if_neg hm] at hrc ⊢
      exact hinv r c hrc

end GoMinesweeper
